import Mathlib

/-!
Verification development for the NoteKeeper backend (MERN note-taking app).

The repository sources available are `Notepad/backend/server.js` (route
wiring) and `DOCUMENTATION.md`, which embeds verbatim the authentication
middleware (`middleware/auth.js`), the user schema (`models/User.js`) and
the note schema (`models/Note.js`).  The route handler files
(`routes/notes.js`, `routes/auth.js`) are referenced by `server.js` but are
not part of the corpus, so the Note Store operations and user registration
are modelled from the specification; definitions carrying such a model say
so in their doc comment.  Machine integers do not arise: ids, user ids and
timestamps are opaque identifiers / counters, modelled as `Nat`; strings
are modelled as `String` over their character lists.
-/

deriving instance DecidableEq for Except

namespace NoteKeeper

/-- Error taxonomy of the spec (§7): each constructor corresponds to one
HTTP failure class produced by the backend. -/
inductive AppError where
  | NotFound
  | ValidationError
  | Unauthenticated
  | DuplicateEmail
  | InvalidCredentials
  | InternalError
deriving DecidableEq

/-- A note record, embedding `noteSchema` from `models/Note.js`
(DOCUMENTATION.md lines 276-292): title, content, the three boolean flags,
a color tag, the owning user id, and the mongoose timestamps. -/
structure Note where
  id : Nat
  title : String
  content : String
  isPinned : Bool
  isArchived : Bool
  isDeleted : Bool
  color : String
  userId : Nat
  createdAt : Nat
  updatedAt : Nat
deriving DecidableEq

/-- A user record, embedding `userSchema` from `models/User.js`
(DOCUMENTATION.md lines 262-271): name, email (stored lowercase per the
schema's `lowercase: true`), and the bcrypt password hash. -/
structure User where
  id : Nat
  name : String
  email : String
  password : String
deriving DecidableEq

/-- The three retrieval views of §4.2. -/
inductive View where
  | active
  | archived
  | trash
deriving DecidableEq

/-- The per-view visibility predicate of §4.2: `active` means not deleted
and not archived, `archived` means not deleted and archived, `trash` means
deleted (archived flag irrelevant). -/
def viewPred : View → Note → Bool
  | .active, n => !n.isDeleted && !n.isArchived
  | .archived, n => !n.isDeleted && n.isArchived
  | .trash, n => n.isDeleted

/-- Comparison used to order a view's result sequence (§4.2 List):
pinned-first applies within the active view only; in every view the tie
break (and, for archived/trash, the whole order) is most-recently-updated
first. -/
def noteLe (v : View) (a b : Note) : Prop :=
  match v with
  | .active =>
      (a.isPinned = true ∧ b.isPinned = false) ∨
        (a.isPinned = b.isPinned ∧ b.updatedAt ≤ a.updatedAt)
  | .archived => b.updatedAt ≤ a.updatedAt
  | .trash => b.updatedAt ≤ a.updatedAt

instance noteLeDec (v : View) : DecidableRel (noteLe v) := fun _a _b =>
  match v with
  | .active => inferInstanceAs (Decidable (_ ∨ _))
  | .archived => inferInstanceAs (Decidable (_ ≤ _))
  | .trash => inferInstanceAs (Decidable (_ ≤ _))

theorem noteLe_total (v : View) (a b : Note) : noteLe v a b ∨ noteLe v b a := by
  cases v <;> simp only [noteLe]
  · cases ha : a.isPinned <;> cases hb : b.isPinned
    · rcases Nat.le_total b.updatedAt a.updatedAt with h | h
      · exact Or.inl (Or.inr ⟨rfl, h⟩)
      · exact Or.inr (Or.inr ⟨rfl, h⟩)
    · exact Or.inr (Or.inl ⟨rfl, rfl⟩)
    · exact Or.inl (Or.inl ⟨rfl, rfl⟩)
    · rcases Nat.le_total b.updatedAt a.updatedAt with h | h
      · exact Or.inl (Or.inr ⟨rfl, h⟩)
      · exact Or.inr (Or.inr ⟨rfl, h⟩)
  · exact Nat.le_total _ _
  · exact Nat.le_total _ _

theorem noteLe_trans (v : View) (a b c : Note) :
    noteLe v a b → noteLe v b c → noteLe v a c := by
  cases v <;> simp only [noteLe]
  · rintro (⟨ha, hb⟩ | ⟨hab, hu1⟩) (⟨hb2, hc⟩ | ⟨hbc, hu2⟩)
    · rw [hb] at hb2; exact absurd hb2 (by simp)
    · rw [hbc] at hb; exact Or.inl ⟨ha, hb⟩
    · exact Or.inl ⟨by rw [hab, hb2], hc⟩
    · exact Or.inr ⟨hab.trans hbc, hu2.trans hu1⟩
  · exact fun h1 h2 => h2.trans h1
  · exact fun h1 h2 => h2.trans h1

instance (v : View) : IsTotal Note (noteLe v) := ⟨noteLe_total v⟩

instance (v : View) : IsTrans Note (noteLe v) := ⟨noteLe_trans v⟩

/-- `isPre pat s`: `pat` occurs at the start of `s` (character lists). -/
def isPre : List Char → List Char → Bool
  | [], _ => true
  | _ :: _, [] => false
  | a :: as, b :: bs => a == b && isPre as bs

/-- `hasSub pat s`: `pat` occurs contiguously somewhere in `s`. -/
def hasSub (pat : List Char) : List Char → Bool
  | [] => pat.isEmpty
  | c :: t => isPre pat (c :: t) || hasSub pat t

/-- Remove the first occurrence of `pat` from `s`, leaving `s` unchanged
when `pat` does not occur: the semantics of the JavaScript
`s.replace(pat, '')` for a string pattern. -/
def removeFirst : List Char → List Char → List Char
  | [], _ => []
  | c :: t, pat => if isPre pat (c :: t) then (c :: t).drop pat.length
      else c :: removeFirst t pat

/-- Lower-case a string's characters (the case folding used both by the
case-insensitive search of §4.2 and by the schema's email lowercasing). -/
def lowered (s : String) : List Char :=
  s.data.map Char.toLower

/-- Case-insensitive substring test over strings, the search semantics of
§4.2 List. -/
def containsCI (hay term : String) : Bool :=
  hasSub (lowered term) (lowered hay)

/-- Modelled from the spec: the search step of §4.2 List
(`routes/notes.js` is not in the corpus).  A present, non-empty term keeps
the notes whose title or content contains it case-insensitively; an empty
or absent term leaves the view set unfiltered. -/
def searchFilter (s : Option String) (ns : List Note) : List Note :=
  match s with
  | none => ns
  | some t =>
      if t == "" then ns
      else ns.filter (fun n => containsCI n.title t || containsCI n.content t)

/-- Modelled from the spec: §4.2 List(userId, view, searchTerm?)
(`routes/notes.js` is not in the corpus).  Restrict the store to the
caller's notes in the requested view, apply the optional search filter,
and order the result by `noteLe` (pinned-first in the active view, then
most-recently-updated first). -/
def listNotes (db : List Note) (u : Nat) (v : View) (s : Option String) :
    List Note :=
  List.insertionSort (noteLe v)
    (searchFilter s (db.filter (fun n => n.userId == u && viewPred v n)))

/-- The ownership-scoped selector used by every mutation: a stored note is
targeted exactly when its id is the requested id and its owner is the
authenticated caller (§4.2: every query and mutation is filtered by
`owner == user id`). -/
def isTarget (u i : Nat) (n : Note) : Bool :=
  n.id == i && n.userId == u

/-- Modelled from the spec: §4.2 Create (`routes/notes.js` is not in the
corpus).  An empty title or content is rejected with `ValidationError` and
the store is unchanged; otherwise a fresh note is appended with
`archived=false, deleted=false`, owner taken from the authenticated caller,
defaults `color="default"`, `pinned=false`, and both timestamps set to the
creation instant.  The pair returned is (operation result, stored notes
after the call). -/
def createNote (db : List Note) (u : Nat) (title content : String)
    (color : Option String) (pinned : Option Bool) (newId now : Nat) :
    Except AppError Note × List Note :=
  if title == "" || content == "" then (.error .ValidationError, db)
  else
    let n : Note :=
      { id := newId, title := title, content := content,
        isPinned := pinned.getD false, isArchived := false,
        isDeleted := false, color := color.getD "default", userId := u,
        createdAt := now, updatedAt := now }
    (.ok n, db ++ [n])

/-- The partial field set accepted by §4.2 Update: any subset of
{title, content, color, pinned, archived}. -/
structure UpdateFields where
  title : Option String
  content : Option String
  color : Option String
  pinned : Option Bool
  archived : Option Bool
deriving DecidableEq

/-- Apply an update's present fields to a note, leaving absent fields
unchanged and bumping the update timestamp. -/
def applyFields (f : UpdateFields) (now : Nat) (n : Note) : Note :=
  { n with
    title := f.title.getD n.title
    content := f.content.getD n.content
    color := f.color.getD n.color
    isPinned := f.pinned.getD n.isPinned
    isArchived := f.archived.getD n.isArchived
    updatedAt := now }

/-- Modelled from the spec: §4.2 Update (`routes/notes.js` is not in the
corpus).  The note is looked up under the ownership scope first — an
absent or non-owned id yields `NotFound`; a present-but-empty title or
content yields `ValidationError`; otherwise the present fields are
applied. -/
def updateNote (db : List Note) (u i : Nat) (f : UpdateFields) (now : Nat) :
    Except AppError Note × List Note :=
  match db.find? (isTarget u i) with
  | none => (.error .NotFound, db)
  | some n =>
      if f.title == some "" || f.content == some "" then
        (.error .ValidationError, db)
      else
        (.ok (applyFields f now n),
          db.map (fun m => if isTarget u i m then applyFields f now m else m))

/-- The per-record write shared by Trash and Restore: set the deleted flag
on the targeted note, bump its update timestamp, and leave every other
record unchanged. -/
def setDeleted (u i : Nat) (b : Bool) (now : Nat) (x : Note) : Note :=
  if isTarget u i x then { x with isDeleted := b, updatedAt := now } else x

/-- Modelled from the spec: §4.2 Trash (`routes/notes.js` is not in the
corpus).  Sets `deleted := true` on the owned note with the given id,
touching no other field but the update timestamp; `NotFound` under the
ownership rule. -/
def trashNote (db : List Note) (u i now : Nat) :
    Except AppError Unit × List Note :=
  if db.any (isTarget u i) then (.ok (), db.map (setDeleted u i true now))
  else (.error .NotFound, db)

/-- Modelled from the spec: §4.2 Restore (`routes/notes.js` is not in the
corpus).  Sets `deleted := false`, leaving `archived` unchanged; `NotFound`
under the ownership rule. -/
def restoreNote (db : List Note) (u i now : Nat) :
    Except AppError Unit × List Note :=
  if db.any (isTarget u i) then (.ok (), db.map (setDeleted u i false now))
  else (.error .NotFound, db)

/-- Modelled from the spec: §4.2 Purge (`routes/notes.js` is not in the
corpus).  Irreversibly removes the owned record with the given id;
`NotFound` under the same ownership rule as Update. -/
def purgeNote (db : List Note) (u i : Nat) :
    Except AppError Unit × List Note :=
  if db.any (isTarget u i) then
    (.ok (), db.filter (fun m => !isTarget u i m))
  else (.error .NotFound, db)

/-- Minimal syntactic email check.  Modelled from the spec: §4.1 requires
the address to be syntactically valid; the exact rule is internal, and no
claim depends on it beyond its existence. -/
def validEmailShape (e : String) : Bool :=
  e.data.contains '@'

/-- Modelled from the spec: §4.1 Register (`routes/auth.js` is not in the
corpus; `models/User.js` stores emails lowercased with a unique index).
The duplicate check is case-insensitive — stored emails are lowercase, so
comparing against the lowered input decides it — and fires regardless of
the other fields (§8); otherwise missing/malformed fields are rejected,
and on success the user is stored with lowered email and hashed password.
The password-hashing primitive is a parameter (trusted library call). -/
def register (users : List User) (name email password : String)
    (hash : String → String) (newId : Nat) :
    Except AppError User × List User :=
  if users.any (fun u => u.email == String.mk (lowered email)) then
    (.error .DuplicateEmail, users)
  else if name == "" || !validEmailShape email || password.length < 6 then
    (.error .ValidationError, users)
  else
    let u : User :=
      { id := newId, name := name, email := String.mk (lowered email),
        password := hash password }
    (.ok u, users ++ [u])

/-- The token extraction of `middleware/auth.js` (DOCUMENTATION.md line
242): `req.header('Authorization')?.replace('Bearer ', '')` removes the
first occurrence of the substring "Bearer " from the header value. -/
def stripBearer (h : String) : String :=
  ⟨removeFirst h.data "Bearer ".data⟩

/-- The authentication middleware of `middleware/auth.js`
(DOCUMENTATION.md lines 238-257).  `verify` stands for the trusted
`jwt.verify` primitive: it returns the token's `userId` claim when the
token is validly signed and unexpired, and nothing when the token is
malformed, signature-invalid or expired (in the source it throws, which
the middleware turns into 401).  A missing header or an empty extracted
token is rejected up front (`if (!token)`). -/
def authMiddleware (verify : String → Option Nat) (header : Option String) :
    Except AppError Nat :=
  match header with
  | none => .error .Unauthenticated
  | some h =>
      let token := stripBearer h
      if token == "" then .error .Unauthenticated
      else
        match verify token with
        | some uid => .ok uid
        | none => .error .Unauthenticated

/-- The wiring of `server.js` line 21
(`app.use('/api/notes', authMiddleware, notesRoutes)`): a protected notes
route runs its handler on the stored notes only after the middleware
resolves a user id; when the middleware rejects, the handler is never
invoked and the store is untouched. -/
def protectedRoute {α : Type} (verify : String → Option Nat)
    (header : Option String)
    (handler : Nat → List Note → Except AppError α × List Note)
    (db : List Note) : Except AppError α × List Note :=
  match authMiddleware verify header with
  | .error e => (.error e, db)
  | .ok uid => handler uid db

/-- Concrete fixtures used to instantiate the theorems below: an active
pinned note and a more recently updated unpinned note of the same owner,
as in §8's ordering and search scenarios. -/
def wActive : Note :=
  { id := 1, title := "Shop", content := "milk,eggs", isPinned := true,
    isArchived := false, isDeleted := false, color := "default",
    userId := 1, createdAt := 0, updatedAt := 10 }

def wRecent : Note :=
  { id := 2, title := "Plan", content := "Trip to Goa", isPinned := false,
    isArchived := false, isDeleted := false, color := "blue", userId := 1,
    createdAt := 0, updatedAt := 20 }

/-- The empty update (no field present). -/
def noFields : UpdateFields :=
  { title := none, content := none, color := none, pinned := none,
    archived := none }

/-- A sample token-verification primitive: accepts exactly the token
"tok123", resolving it to user 7. -/
def wVerify : String → Option Nat :=
  fun t => if t == "tok123" then some 7 else none

/-- A sample protected handler that echoes the resolved user id. -/
def wHandler : Nat → List Note → Except AppError Nat × List Note :=
  fun uid db => (.ok uid, db)

/- ### Helper lemmas -/

theorem mem_searchFilter {s : Option String} {l : List Note} {n : Note}
    (h : n ∈ searchFilter s l) : n ∈ l := by
  cases s with
  | none => exact h
  | some t =>
      simp only [searchFilter] at h
      split at h
      · exact h
      · exact (List.mem_filter.mp h).1

theorem mem_listNotes {db : List Note} {u : Nat} {v : View}
    {s : Option String} {n : Note} :
    n ∈ listNotes db u v s ↔
      n ∈ searchFilter s (db.filter (fun m => m.userId == u && viewPred v m)) :=
  (List.perm_insertionSort (noteLe v) _).mem_iff

theorem isTarget_false_of_not {db : List Note} {u i : Nat}
    (h : ∀ n ∈ db, ¬(n.id = i ∧ n.userId = u)) :
    ∀ n ∈ db, isTarget u i n = false := by
  intro n hn
  cases hb : isTarget u i n with
  | false => rfl
  | true =>
      simp only [isTarget, Bool.and_eq_true, beq_iff_eq] at hb
      exact absurd hb (h n hn)

theorem mutations_notFound {db : List Note} {u i : Nat}
    (h : ∀ n ∈ db, isTarget u i n = false) (f : UpdateFields) (now : Nat) :
    updateNote db u i f now = (.error .NotFound, db)
    ∧ trashNote db u i now = (.error .NotFound, db)
    ∧ restoreNote db u i now = (.error .NotFound, db)
    ∧ purgeNote db u i = (.error .NotFound, db) := by
  have hf : db.find? (isTarget u i) = none :=
    List.find?_eq_none.mpr (fun x hx => by simp [h x hx])
  have ha : db.any (isTarget u i) = false := by
    simp only [List.any_eq_false]
    intro x hx
    simp [h x hx]
  refine ⟨?_, ?_, ?_, ?_⟩ <;>
    simp [updateNote, trashNote, restoreNote, purgeNote, hf, ha]

theorem authMiddleware_ok_of_verify (verify : String → Option Nat)
    (h : String) (uid : Nat) (hv : verify "" = none)
    (hvh : verify (stripBearer h) = some uid) :
    authMiddleware verify (some h) = .ok uid := by
  have hne : (stripBearer h == "") = false := by
    cases hb : stripBearer h == "" with
    | false => rfl
    | true =>
        have hbe : stripBearer h = "" := by simpa using hb
        rw [hbe, hv] at hvh
        exact Option.noConfusion hvh
  simp [authMiddleware, hne, hvh]

/- ### Claim theorems -/

/-- C1: for every user U and view v, List with no search term returns
exactly U's notes satisfying v's visibility predicate, and a note never
appears in the List of a user other than its owner, for any view and
search term. -/
theorem listNotes_ownership_and_views (db : List Note) (U : Nat) (v : View)
    (n : Note) :
    (n ∈ listNotes db U v none ↔ n ∈ db ∧ n.userId = U ∧ viewPred v n = true)
    ∧ (∀ U2 s, n.userId ≠ U2 → n ∉ listNotes db U2 v s) := by
  constructor
  · rw [mem_listNotes]
    show n ∈ db.filter _ ↔ _
    rw [List.mem_filter]
    simp [Bool.and_eq_true, beq_iff_eq, and_assoc]
  · intro U2 s hne hmem
    have h1 := mem_searchFilter (mem_listNotes.mp hmem)
    have h2 := (List.mem_filter.mp h1).2
    simp only [Bool.and_eq_true, beq_iff_eq] at h2
    exact hne h2.1

theorem listNotes_ownership_and_views_witness :
    wActive ∈ listNotes [wActive] 1 View.active none
    ∧ wActive ∉ listNotes [wActive] 2 View.active none :=
  ⟨(listNotes_ownership_and_views [wActive] 1 View.active wActive).1.mpr
      (by decide),
    (listNotes_ownership_and_views [wActive] 2 View.active wActive).2 2 none
      (by decide)⟩

/-- C2: each mutation (Update, Trash, Restore, Purge) invoked on an id that
is absent or not owned by the caller fails with `NotFound` — never
`Forbidden`, which does not even exist in the error taxonomy — and leaves
the stored notes unchanged. -/
theorem mutation_unowned_notFound (db : List Note) (u i now : Nat)
    (f : UpdateFields) (h : ∀ n ∈ db, ¬(n.id = i ∧ n.userId = u)) :
    updateNote db u i f now = (.error .NotFound, db)
    ∧ trashNote db u i now = (.error .NotFound, db)
    ∧ restoreNote db u i now = (.error .NotFound, db)
    ∧ purgeNote db u i = (.error .NotFound, db) :=
  mutations_notFound (isTarget_false_of_not h) f now

theorem mutation_unowned_notFound_witness :
    updateNote [wActive] 5 1 noFields 0 = (.error .NotFound, [wActive])
    ∧ trashNote [wActive] 5 1 0 = (.error .NotFound, [wActive])
    ∧ restoreNote [wActive] 5 1 0 = (.error .NotFound, [wActive])
    ∧ purgeNote [wActive] 5 1 = (.error .NotFound, [wActive]) :=
  mutation_unowned_notFound [wActive] 5 1 0 noFields (by decide)

/-- C3: Create with non-empty title and content appends exactly one new
note whose archived and deleted flags are false and whose owner is the
authenticated caller (the owner is the `u` argument resolved by the
middleware, not a client-supplied field); an empty title or content fails
with `ValidationError` and stores nothing. -/
theorem createNote_spec (db : List Note) (u newId now : Nat)
    (title content : String) (color : Option String) (pinned : Option Bool) :
    (title ≠ "" → content ≠ "" →
      ∃ n, createNote db u title content color pinned newId now
          = (.ok n, db ++ [n])
        ∧ n.isArchived = false ∧ n.isDeleted = false ∧ n.userId = u)
    ∧ (title = "" ∨ content = "" →
      createNote db u title content color pinned newId now
        = (.error .ValidationError, db)) := by
  constructor
  · intro ht hc
    refine ⟨{ id := newId, title := title, content := content,
              isPinned := pinned.getD false, isArchived := false,
              isDeleted := false, color := color.getD "default",
              userId := u, createdAt := now, updatedAt := now },
            ?_, rfl, rfl, rfl⟩
    simp [createNote, ht, hc]
  · rintro (h | h) <;> simp [createNote, h]

theorem createNote_spec_witness :
    (∃ n, createNote [] 1 "Shop" "milk,eggs" none none 1 0 = (.ok n, [] ++ [n])
      ∧ n.isArchived = false ∧ n.isDeleted = false ∧ n.userId = 1)
    ∧ createNote [] 1 "" "milk,eggs" none none 1 0
        = (.error .ValidationError, []) :=
  ⟨(createNote_spec [] 1 1 0 "Shop" "milk,eggs" none none).1 (by decide)
      (by decide),
    (createNote_spec [] 1 1 0 "" "milk,eggs" none none).2 (Or.inl rfl)⟩

/-- C5: with a non-empty search term the List result is exactly the view
set restricted to notes whose title or content contains the term
case-insensitively; the empty term returns the same result as no term. -/
theorem listNotes_search (db : List Note) (u : Nat) (v : View) (s : String)
    (n : Note) :
    (s ≠ "" →
      (n ∈ listNotes db u v (some s) ↔
        n ∈ db ∧ n.userId = u ∧ viewPred v n = true ∧
          (containsCI n.title s = true ∨ containsCI n.content s = true)))
    ∧ listNotes db u v (some "") = listNotes db u v none := by
  constructor
  · intro hs
    rw [mem_listNotes]
    have hb : (s == "") = false := by
      cases hbe : s == "" with
      | false => rfl
      | true => exact absurd (by simpa using hbe) hs
    simp only [searchFilter, hb, Bool.false_eq_true, if_false]
    rw [List.mem_filter, List.mem_filter]
    simp only [Bool.and_eq_true, Bool.or_eq_true, beq_iff_eq]
    tauto
  · simp [listNotes, searchFilter]

theorem listNotes_search_witness :
    wRecent ∈ listNotes [wRecent, wActive] 1 View.active (some "goa") :=
  ((listNotes_search [wRecent, wActive] 1 View.active "goa" wRecent).1
      (by decide)).mpr (by decide)

/-- C9: registering with an email equal, case-insensitively, to a stored
user's email fails with `DuplicateEmail` whatever the name and password
are, and the stored users are unchanged.  Stored emails are lowercase (the
schema's `lowercase: true`), so a user registered with email `e` is stored
with `lowered e`. -/
theorem register_duplicate (users : List User) (u : User)
    (name e e2 password : String) (hash : String → String) (newId : Nat)
    (hu : u ∈ users) (he : u.email = String.mk (lowered e))
    (heq : lowered e2 = lowered e) :
    register users name e2 password hash newId
      = (.error .DuplicateEmail, users) := by
  have hany : users.any (fun x => x.email == String.mk (lowered e2)) = true :=
    List.any_eq_true.mpr ⟨u, hu, by simp [he, heq]⟩
  simp [register, hany]

theorem register_duplicate_witness :
    register [{ id := 1, name := "Ann", email := "ann@x.com", password := "h" }]
        "Bob" "Ann@X.com" "pw123456" (fun s => s) 2
      = (.error .DuplicateEmail,
          [{ id := 1, name := "Ann", email := "ann@x.com", password := "h" }]) :=
  register_duplicate
    [{ id := 1, name := "Ann", email := "ann@x.com", password := "h" }]
    { id := 1, name := "Ann", email := "ann@x.com", password := "h" }
    "Bob" "ann@x.com" "Ann@X.com" "pw123456" (fun s => s) 2
    (by decide) (by decide) (by decide)

/-- C4: every List result is sorted by the per-view comparison — for the
active view pinned-first then most-recently-updated first, for the
archived and trash views recency alone, where the comparison provably
ignores the pinned flag — and on the §8 example (A pinned and updated at
10, B unpinned and updated at 20) the active view returns [A, B]. -/
theorem listNotes_ordering (db : List Note) (u : Nat) (v : View)
    (s : Option String) :
    List.Sorted (noteLe v) (listNotes db u v s)
    ∧ (∀ v2 a b p q, v2 ≠ View.active →
        (noteLe v2 a b ↔
          noteLe v2 { a with isPinned := p } { b with isPinned := q }))
    ∧ listNotes [wRecent, wActive] 1 View.active none = [wActive, wRecent] := by
  refine ⟨List.sorted_insertionSort (noteLe v) _, ?_, by decide⟩
  intro v2 a b p q hv
  cases v2 with
  | active => exact absurd rfl hv
  | archived => exact Iff.rfl
  | trash => exact Iff.rfl

theorem listNotes_ordering_witness :
    List.Sorted (noteLe View.active) (listNotes [wRecent, wActive] 1 View.active none)
    ∧ (noteLe View.trash wActive wRecent ↔
        noteLe View.trash { wActive with isPinned := false }
          { wRecent with isPinned := true }) :=
  ⟨(listNotes_ordering [wRecent, wActive] 1 View.active none).1,
    (listNotes_ordering [] 0 View.trash none).2.1 View.trash wActive wRecent
      false true (by decide)⟩

/-- C8: a protected notes route (server.js wires every /api/notes route
behind the middleware) answers `Unauthenticated` without running its
handler — hence without any note query or mutation — when the
Authorization header is missing or when the extracted token does not
verify (malformed, signature-invalid or expired tokens make `jwt.verify`
throw, i.e. `verify` return `none`); with a verifying token the handler
runs scoped to exactly the user id encoded in the token.  The hypothesis
states that the verification primitive rejects the empty token. -/
theorem protected_auth {α : Type} (verify : String → Option Nat)
    (header : Option String)
    (handler : Nat → List Note → Except AppError α × List Note)
    (db : List Note) (hv : verify "" = none) :
    (header = none →
      protectedRoute verify header handler db = (.error .Unauthenticated, db))
    ∧ (∀ h, header = some h → verify (stripBearer h) = none →
        protectedRoute verify header handler db = (.error .Unauthenticated, db))
    ∧ (∀ h uid, header = some h → verify (stripBearer h) = some uid →
        protectedRoute verify header handler db = handler uid db) := by
  refine ⟨?_, ?_, ?_⟩
  · rintro rfl
    rfl
  · rintro h rfl hv2
    by_cases he : (stripBearer h == "") = true
    · simp [protectedRoute, authMiddleware, he]
    · simp only [Bool.not_eq_true] at he
      simp [protectedRoute, authMiddleware, he, hv2]
  · rintro h uid rfl hv2
    simp [protectedRoute, authMiddleware_ok_of_verify verify h uid hv hv2]

theorem protected_auth_witness :
    protectedRoute wVerify (some "Bearer tok123") wHandler [] = wHandler 7 [] :=
  (protected_auth wVerify (some "Bearer tok123") wHandler [] (by decide)).2.2
    "Bearer tok123" 7 rfl (by decide)

theorem removeFirst_of_no_sub (hay pat : List Char)
    (h : hasSub pat hay = false) : removeFirst hay pat = hay := by
  induction hay with
  | nil => rfl
  | cons c t ih =>
      rw [hasSub, Bool.or_eq_false_iff] at h
      rw [removeFirst, if_neg (by simp [h.1]), ih h.2]

/-- C10: the middleware accepts exactly when the Authorization header is
present and, after removing the first occurrence of the substring
"Bearer " from it, the remainder verifies; removal is the identity on a
header not containing "Bearer ", so a valid raw token sent without the
prefix is accepted, and the resolved user id is the token's userId claim.
The hypothesis states that the verification primitive rejects the empty
token. -/
theorem auth_accept_characterization (verify : String → Option Nat)
    (header : Option String) (hv : verify "" = none) :
    ((∃ uid, authMiddleware verify header = .ok uid) ↔
      (∃ h uid, header = some h ∧ verify (stripBearer h) = some uid))
    ∧ (∀ t, hasSub "Bearer ".data t.data = false → stripBearer t = t)
    ∧ (∀ h uid, header = some h → verify (stripBearer h) = some uid →
        authMiddleware verify header = .ok uid) := by
  refine ⟨⟨?_, ?_⟩, ?_, ?_⟩
  · rintro ⟨uid, huid⟩
    cases header with
    | none => exact absurd huid (by simp [authMiddleware])
    | some h =>
        refine ⟨h, uid, rfl, ?_⟩
        by_cases he : (stripBearer h == "") = true
        · rw [authMiddleware] at huid
          simp only [he, if_pos] at huid
          exact absurd huid (by simp)
        · simp only [Bool.not_eq_true] at he
          rw [authMiddleware] at huid
          simp only [he, Bool.false_eq_true, if_false] at huid
          cases hvh : verify (stripBearer h) with
          | none => rw [hvh] at huid; exact absurd huid (by simp)
          | some u2 =>
              rw [hvh] at huid
              simp only [Except.ok.injEq] at huid
              rw [huid]
  · rintro ⟨h, uid, rfl, hvh⟩
    exact ⟨uid, authMiddleware_ok_of_verify verify h uid hv hvh⟩
  · intro t ht
    show String.mk (removeFirst t.data "Bearer ".data) = t
    rw [removeFirst_of_no_sub t.data "Bearer ".data ht]
  · rintro h uid rfl hvh
    exact authMiddleware_ok_of_verify verify h uid hv hvh

theorem auth_accept_characterization_witness :
    authMiddleware wVerify (some "tok123") = .ok 7 :=
  (auth_accept_characterization wVerify (some "tok123") (by decide)).2.2
    "tok123" 7 rfl (by decide)

theorem setDeleted_id (u i : Nat) (b : Bool) (now : Nat) (x : Note) :
    (setDeleted u i b now x).id = x.id := by
  rw [setDeleted]; split <;> rfl

theorem setDeleted_userId (u i : Nat) (b : Bool) (now : Nat) (x : Note) :
    (setDeleted u i b now x).userId = x.userId := by
  rw [setDeleted]; split <;> rfl

theorem setDeleted_isArchived (u i : Nat) (b : Bool) (now : Nat) (x : Note) :
    (setDeleted u i b now x).isArchived = x.isArchived := by
  rw [setDeleted]; split <;> rfl

theorem setDeleted_target {u i : Nat} (b : Bool) (now : Nat) {x : Note}
    (hx : isTarget u i x = true) :
    setDeleted u i b now x = { x with isDeleted := b, updatedAt := now } := by
  rw [setDeleted, if_pos hx]

theorem setDeleted_not {u i : Nat} (b : Bool) (now : Nat) {x : Note}
    (hx : isTarget u i x = false) : setDeleted u i b now x = x := by
  rw [setDeleted, if_neg (by simp [hx])]

/-- C6: trashing an owned note (with a store-unique id) succeeds and flips
only its deleted flag — the archived flags of the whole store are
pointwise untouched — and restoring it afterwards succeeds and returns it
to deleted=false with the archived value it had immediately before the
trash. -/
theorem trash_restore_roundtrip (db : List Note) (u i t1 t2 : Nat) (n : Note)
    (hn : n ∈ db) (hid : n.id = i) (hu : n.userId = u)
    (huniq : ∀ m ∈ db, m.id = i → m = n) :
    ∃ db1 db2,
      trashNote db u i t1 = (.ok (), db1)
      ∧ db1.map Note.isArchived = db.map Note.isArchived
      ∧ (∀ m ∈ db1, m.id = i → m.isDeleted = true ∧ m.isArchived = n.isArchived)
      ∧ restoreNote db1 u i t2 = (.ok (), db2)
      ∧ (∀ m ∈ db2, m.id = i →
          m.isDeleted = false ∧ m.isArchived = n.isArchived) := by
  have htarget : isTarget u i n = true := by simp [isTarget, hid, hu]
  have hany1 : db.any (isTarget u i) = true :=
    List.any_eq_true.mpr ⟨n, hn, htarget⟩
  have htF : isTarget u i (setDeleted u i true t1 n) = true := by
    rw [isTarget, setDeleted_id, setDeleted_userId]
    exact htarget
  have hany2 : (db.map (setDeleted u i true t1)).any (isTarget u i) = true :=
    List.any_eq_true.mpr
      ⟨setDeleted u i true t1 n, List.mem_map.mpr ⟨n, hn, rfl⟩, htF⟩
  refine ⟨db.map (setDeleted u i true t1),
          (db.map (setDeleted u i true t1)).map (setDeleted u i false t2),
          by simp [trashNote, hany1], ?_, ?_,
          by simp [restoreNote, hany2], ?_⟩
  · rw [List.map_map]
    exact List.map_congr_left
      (fun a _ => setDeleted_isArchived u i true t1 a)
  · intro m hm hmi
    obtain ⟨a, ha, rfl⟩ := List.mem_map.mp hm
    cases hta : isTarget u i a with
    | true =>
        have han : a = n := huniq a ha (by
          rw [isTarget, Bool.and_eq_true, beq_iff_eq, beq_iff_eq] at hta
          exact hta.1)
        subst han
        rw [setDeleted_target true t1 hta]
        exact ⟨rfl, rfl⟩
    | false =>
        rw [setDeleted_not true t1 hta] at hmi
        rw [huniq a ha hmi] at hta
        simp [htarget] at hta
  · intro m hm hmi
    rw [List.map_map] at hm
    obtain ⟨a, ha, rfl⟩ := List.mem_map.mp hm
    cases hta : isTarget u i a with
    | true =>
        have han : a = n := huniq a ha (by
          rw [isTarget, Bool.and_eq_true, beq_iff_eq, beq_iff_eq] at hta
          exact hta.1)
        subst han
        have htF2 : isTarget u i (setDeleted u i true t1 a) = true := by
          rw [isTarget, setDeleted_id, setDeleted_userId]
          exact hta
        constructor
        · show (setDeleted u i false t2 (setDeleted u i true t1 a)).isDeleted
            = false
          rw [setDeleted_target false t2 htF2]
        · show (setDeleted u i false t2 (setDeleted u i true t1 a)).isArchived
            = a.isArchived
          rw [setDeleted_isArchived, setDeleted_isArchived]
    | false =>
        have hmi2 : a.id = i := by
          rw [Function.comp_apply, setDeleted_not true t1 hta,
            setDeleted_not false t2 hta] at hmi
          exact hmi
        rw [huniq a ha hmi2] at hta
        simp [htarget] at hta

theorem trash_restore_roundtrip_witness :
    ∃ db1 db2,
      trashNote [wActive] 1 1 30 = (.ok (), db1)
      ∧ db1.map Note.isArchived = [wActive].map Note.isArchived
      ∧ (∀ m ∈ db1, m.id = 1 →
          m.isDeleted = true ∧ m.isArchived = wActive.isArchived)
      ∧ restoreNote db1 1 1 40 = (.ok (), db2)
      ∧ (∀ m ∈ db2, m.id = 1 →
          m.isDeleted = false ∧ m.isArchived = wActive.isArchived) :=
  trash_restore_roundtrip [wActive] 1 1 30 40 wActive (by decide) (by decide)
    (by decide) (by decide)

/-- C7: once Purge succeeds the record is gone for good: against the
post-purge store, every List by the owner excludes the purged id, and
Update, Trash, Restore and Purge on that id all fail with `NotFound` —
the destroyed state has no outgoing transition. -/
theorem purge_terminal (db : List Note) (u i now : Nat) (f : UpdateFields)
    (db1 : List Note) (h : purgeNote db u i = (.ok (), db1)) :
    (∀ v s m, m ∈ listNotes db1 u v s → m.id ≠ i)
    ∧ updateNote db1 u i f now = (.error .NotFound, db1)
    ∧ trashNote db1 u i now = (.error .NotFound, db1)
    ∧ restoreNote db1 u i now = (.error .NotFound, db1)
    ∧ purgeNote db1 u i = (.error .NotFound, db1) := by
  have hdb1 : db1 = db.filter (fun m => !isTarget u i m) := by
    cases hany : db.any (isTarget u i) with
    | true =>
        rw [purgeNote] at h
        simp only [hany, if_true, Prod.mk.injEq] at h
        exact h.2.symm
    | false =>
        rw [purgeNote] at h
        simp [hany] at h
  have hnone : ∀ m ∈ db1, isTarget u i m = false := by
    intro m hm
    rw [hdb1] at hm
    simpa using (List.mem_filter.mp hm).2
  obtain ⟨h1, h2, h3, h4⟩ := mutations_notFound hnone f now
  refine ⟨?_, h1, h2, h3, h4⟩
  intro v s m hm hmi
  have hflt := List.mem_filter.mp (mem_searchFilter (mem_listNotes.mp hm))
  have husr := hflt.2
  simp only [Bool.and_eq_true, beq_iff_eq] at husr
  have hfalse := hnone m hflt.1
  rw [isTarget] at hfalse
  simp [hmi, husr.1] at hfalse

theorem purge_terminal_witness :
    (∀ v s m, m ∈ listNotes [] 1 v s → m.id ≠ 1)
    ∧ updateNote [] 1 1 noFields 0 = (.error .NotFound, [])
    ∧ trashNote [] 1 1 0 = (.error .NotFound, [])
    ∧ restoreNote [] 1 1 0 = (.error .NotFound, [])
    ∧ purgeNote [] 1 1 = (.error .NotFound, []) :=
  purge_terminal [wActive] 1 1 0 noFields [] (by decide)

end NoteKeeper
